import Mathlib

/-!
# Verification of the Stabilizer CAPTCHA behavioral verification engine

Shallow embedding of the core of `app/verification.py` and `app/routes.py`
(schedule generation, jolt generation, telemetry analysis, token lifecycle
and the verification decision), together with theorems settling the frozen
claims about this code.

Modelling conventions:
* Python floats are idealized as exact rationals (`ℚ`).  The single use of
  a square root (`** 0.5` inside `normalize`) has no exact rational
  counterpart, so the analyzer takes the square-root function `fsqrt` as an
  explicit parameter; every theorem below is either independent of `fsqrt`
  or instantiated at inputs whose variances are exact squares (0 or 1),
  where any reasonable `fsqrt` — including the identity used in concrete
  witnesses — agrees with the real square root.
* Randomness (`random.sample`, `random.uniform`, `random.randint`,
  `secrets.token_urlsafe`) is hoisted into explicit parameters: the drawn
  keyframe positions/values, jolt offsets/magnitudes and tokens are inputs.
* Python's fallible arithmetic is made explicit: the analyzer returns
  `Option …`, with `none` standing for an uncaught `ZeroDivisionError`.
* Tokens are modelled as natural numbers; the `active_sessions` dict is a
  `Finset ℕ` of live tokens (the stored schedule payload is never consulted
  by the verification path, only membership and deletion are).
* Flask's per-client cookie session is modelled as the `attempts`/`verified`
  fields of the server state, for a single client.
-/

namespace Stabilizer

set_option maxRecDepth 8000

/-! ## Configuration constants (`app/config.py`, default values) -/

/-- `Config.MAX_ATTEMPTS` (default 3; env-overridable, the concrete value is
immaterial to the structure of the claims). -/
def MAX_ATTEMPTS : ℕ := 3

/-- `Config.FRAME_COUNT`. -/
def FRAME_COUNT : ℕ := 300

/-- `Config.PASS_FRAME_THRESHOLD`. -/
def PASS_FRAME_THRESHOLD : ℕ := 280

/-! ## Small helpers shared by the embeddings -/

/-- Python `min(a, b)` (kernel-reducible, unlike the lattice `min`). -/
def pyMin {α : Type} [LE α] [DecidableRel (fun a b : α => a ≤ b)] (a b : α) : α :=
  if a ≤ b then a else b

/-- Python `max(a, b)` (kernel-reducible, unlike the lattice `max`). -/
def pyMax {α : Type} [LE α] [DecidableRel (fun a b : α => a ≤ b)] (a b : α) : α :=
  if b ≤ a then a else b

/-- Python `abs` on a float (kernel-reducible, unlike the lattice `|·|`). -/
def pyAbs (q : ℚ) : ℚ :=
  if q < 0 then -q else q

/-- First differences: `[l[i] - l[i-1] for i in range(1, len(l))]`. -/
def diffs (l : List ℚ) : List ℚ :=
  (l.tail.zip l).map fun p => p.1 - p.2

/-- `sum(abs(x) for x in l)`. -/
def sumAbs (l : List ℚ) : ℚ :=
  (l.map pyAbs).sum

/-- Python `int()` on a float: truncation toward zero. -/
def pyInt (q : ℚ) : ℤ :=
  if 0 ≤ q then ⌊q⌋ else ⌈q⌉

/-- Round half to even (Python's `round` tie-breaking) to an integer. -/
def roundHalfEven (x : ℚ) : ℤ :=
  let f := ⌊x⌋
  let r := x - f
  if r < 1/2 then f
  else if 1/2 < r then f + 1
  else if Even f then f else f + 1

/-- Python `round(q, nd)` (banker's rounding at `nd` decimal places). -/
def pyRound (nd : ℕ) (q : ℚ) : ℚ :=
  (roundHalfEven (q * 10 ^ nd) : ℚ) / 10 ^ nd

/-- `max(abs(a) for a in l) if l else 0` (all entries are compared through
their absolute value, and the fold base 0 is a lower bound of every `|a|`). -/
def maxAbs (l : List ℚ) : ℚ :=
  (l.map pyAbs).foldr pyMax 0

/-! ## Schedule generator (`verification.py`, `generate_smooth_parameter_schedule`)

The random draws are hoisted into parameters: `positions` is the sorted list
`[0] + sample(range(1, frame_count-1), num_keyframes-2) + [frame_count-1]`
and `values` the list of `num_keyframes` uniform draws in `[min_val, max_val]`.
-/

/-- `lerp(start, end, t)` — linear interpolation. -/
def lerp (a b t : ℚ) : ℚ :=
  a + (b - a) * t

/-- The inner `while` loop advancing the keyframe cursor:
`while keyframe_idx < len(positions) - 1 and frame >= positions[keyframe_idx+1]`. -/
def advanceIdx (positions : List ℕ) (f : ℕ) (idx : ℕ) : ℕ :=
  if h : idx + 1 < positions.length then
    if positions.get ⟨idx + 1, h⟩ ≤ f then advanceIdx positions f (idx + 1)
    else idx
  else idx
termination_by positions.length - idx
decreasing_by simp_wf; omega

/-- The body of the `for frame` loop: the value appended for frame `f` once
the cursor has been advanced to `idx`. -/
def scheduleValueAt (positions : List ℕ) (values : List ℚ) (idx f : ℕ) : ℚ :=
  if positions.length - 1 ≤ idx then
    values.getD (values.length - 1) 0
  else
    let start_frame := positions.getD idx 0
    let end_frame := positions.getD (idx + 1) 0
    let t : ℚ :=
      if end_frame ≠ start_frame then ((f : ℚ) - start_frame) / ((end_frame : ℚ) - start_frame)
      else 0
    lerp (values.getD idx 0) (values.getD (idx + 1) 0) t

/-- The `for frame in range(frame_count)` loop: `fuel` frames remain,
`f` is the current frame, `idx` the persistent cursor. -/
def scheduleGo (positions : List ℕ) (values : List ℚ) (idx : ℕ) : ℕ → ℕ → List ℚ
  | _, 0 => []
  | f, fuel + 1 =>
    let idx2 := advanceIdx positions f idx
    scheduleValueAt positions values idx2 f :: scheduleGo positions values idx2 (f + 1) fuel

/-- `generate_smooth_parameter_schedule`, with the random keyframe draws as
explicit `positions`/`values` parameters. -/
def generate_smooth_parameter_schedule (positions : List ℕ) (values : List ℚ)
    (frame_count : ℕ) : List ℚ :=
  scheduleGo positions values 0 0 frame_count

/-! ## Force jolts (`verification.py`, `generate_force_jolts`)

The random draws are parameters: `jolt_interval` is the `randint(70, 100)`
draw and `draws` the per-iteration `(offset, magnitude)` draws
(`randint(0, min(20, frame_count-i-1))` and `uniform(-0.004, 0.004)`). -/

/-- One iteration of `for decay in range(1, 5)`:
`jolts[jolt_frame + decay] = jolts[jolt_frame] * 0.5 ** decay` guarded by
`jolt_frame + decay < frame_count`. -/
def decayStep (frame_count jolt_frame : ℕ) (l : List ℚ) (decay : ℕ) : List ℚ :=
  if jolt_frame + decay < frame_count then
    l.set (jolt_frame + decay) (l.getD jolt_frame 0 * (0.5 : ℚ) ^ decay)
  else l

/-- The body of one iteration of the outer `for i in range(0, frame_count,
jolt_interval)` loop: place the impulse and its decay tail. -/
def applyJoltEvent (frame_count : ℕ) (jolts : List ℚ) (ev : ℕ × ℚ) : List ℚ :=
  if ev.1 < frame_count then
    (List.range' 1 4).foldl (decayStep frame_count ev.1) (jolts.set ev.1 ev.2)
  else jolts

/-- Process the jolt events in loop order. -/
def processJolts (frame_count : ℕ) (jolts : List ℚ) : List (ℕ × ℚ) → List ℚ
  | [] => jolts
  | e :: rest => processJolts frame_count (applyJoltEvent frame_count jolts e) rest

/-- Python `range(0, frame_count, step)`. -/
def pyRangeStep (frame_count step : ℕ) : List ℕ :=
  List.range' 0 ((frame_count + step - 1) / step) step

/-- The `(jolt_frame, magnitude)` events generated by the outer loop:
`jolt_frame = i + offset` for each interval start `i`, paired with its
magnitude draw. -/
def joltEvents (frame_count jolt_interval : ℕ) (draws : List (ℕ × ℚ)) :
    List (ℕ × ℚ) :=
  ((pyRangeStep frame_count jolt_interval).zip draws).map fun p => (p.1 + p.2.1, p.2.2)

/-- `generate_force_jolts`, with the random draws as explicit parameters. -/
def generate_force_jolts (frame_count jolt_interval : ℕ) (draws : List (ℕ × ℚ)) :
    List ℚ :=
  processJolts frame_count (List.replicate frame_count 0)
    (joltEvents frame_count jolt_interval draws)

/-- The last event in the list (in processing = frame order) whose base frame
is in range and whose 4-frame decay window covers index `n`.  Characterizes
which write "wins" at index `n`. -/
def lastCover (frame_count n : ℕ) : List (ℕ × ℚ) → Option (ℕ × ℚ)
  | [] => none
  | e :: rest =>
    match lastCover frame_count n rest with
    | some x => some x
    | none => if e.1 < frame_count ∧ e.1 ≤ n ∧ n ≤ e.1 + 4 then some e else none

/-! ## Telemetry analyzer (`verification.py`, `analyze_behavior_pattern`) -/

/-- Labels for the heuristic reason strings appended by the analyzer (the
numeric payloads interpolated into the Python f-strings are carried in the
metrics fields). -/
inductive Reason where
  | mechanicalSmoothness
  | excessiveNoise
  | highLatency
  | instantReaction
  | unnaturalEfficiency
  | erraticSpeed
deriving DecidableEq, Repr

/-- The `details` dict: either the insufficient-data error marker or the
metrics (`input_roughness` and `avg_speed` rounded to 3 decimals as in the
source, `estimated_lag`, and the triggered reasons in evaluation order). -/
inductive AnalysisDetails where
  | insufficientData
  | metrics (input_roughness : ℚ) (estimated_lag : ℕ) (avg_speed : ℚ)
      (reasons : List Reason)
deriving DecidableEq, Repr

/-- `normalize(data)`: zero mean / unit variance, all zeros when the standard
deviation is zero.  `fsqrt` models the float `** 0.5`; both call sites pass a
nonempty slice (length > 50), so the divisions by `len(data)` are nonzero. -/
def normalize (fsqrt : ℚ → ℚ) (data : List ℚ) : List ℚ :=
  let mean := data.sum / (data.length : ℚ)
  let std := fsqrt (((data.map fun x => (x - mean) ^ 2).sum) / (data.length : ℚ))
  if std = 0 then List.replicate data.length 0
  else data.map fun x => (x - mean) / std

/-- The dot product of the inner lag loop:
`for i in range(len(angle_sample) - lag): dot += a[i] * v[i+lag]`. -/
def dotLag (a v : List ℚ) (lag : ℕ) : ℚ :=
  ((List.range (a.length - lag)).map fun i => a.getD i 0 * v.getD (i + lag) 0).sum

/-- One lag's mean pointwise product, `dot / count if count > 0 else 0`. -/
def corrAt (a v : List ℚ) (lag : ℕ) : ℚ :=
  let count := a.length - lag
  if 0 < count then dotLag a v lag / (count : ℚ) else 0

/-- The `for lag in range(0, 25)` search: running
`(best_correlation, estimated_lag)` pair, updated on strict improvement,
starting from `(-1, 0)`. -/
def bestLag (a v : List ℚ) : ℚ × ℕ :=
  (List.range 25).foldl
    (fun acc lag => if acc.1 < corrAt a v lag then (corrAt a v lag, lag) else acc)
    (-1, 0)

/-- Roughness heuristic: weight added to `bot_score` and reason appended. -/
def roughnessScore (r : ℚ) : ℚ × List Reason :=
  if r < 0.4 then (60, [.mechanicalSmoothness])
  else if 1.2 < r then (30, [.excessiveNoise])
  else (0, [])

/-- Lag heuristic: weight added to `bot_score` and reason appended. -/
def lagScore (lag : ℕ) : ℚ × List Reason :=
  if 5 < lag then (50, [.highLatency])
  else if lag < 1 then (50, [.instantReaction])
  else (0, [])

/-- Speed heuristic: weight added to `bot_score` and reason appended. -/
def speedScore (s : ℚ) : ℚ × List Reason :=
  if s < 0.2 then (40, [.unnaturalEfficiency])
  else if 1.5 < s then (40, [.erraticSpeed])
  else (0, [])

/-- `analyze_behavior_pattern(angle_history, cart_history)`.

Returns `some (ai_probability, human_probability, details)`; `none` models the
uncaught `ZeroDivisionError` raised by
`avg_speed = total_distance / len(cart_velocity)` when `cart_velocity` is
empty (i.e. `cart_history` has exactly one element), which is the only
reachable fallible operation. -/
def analyze_behavior_pattern (fsqrt : ℚ → ℚ) (angle_history cart_history : List ℚ) :
    Option (ℚ × ℚ × AnalysisDetails) :=
  if angle_history = [] ∨ angle_history.length < 20 ∨ cart_history = [] then
    some (0, 100, .insufficientData)
  else
    let cart_velocity := diffs cart_history
    let cart_accel := diffs cart_velocity
    let input_roughness : ℚ :=
      if cart_accel ≠ [] then sumAbs cart_accel / (cart_accel.length : ℚ) else 0
    let sample_size : ℤ :=
      (pyMin angle_history.length cart_velocity.length : ℤ) - 10
    let estimated_lag : ℕ :=
      if 50 < sample_size then
        let sampleN := pyMin angle_history.length cart_velocity.length - 10
        let angle_sample := normalize fsqrt ((angle_history.drop 10).take sampleN)
        let vel_sample := normalize fsqrt ((cart_velocity.drop 10).take sampleN)
        (bestLag angle_sample vel_sample).2
      else 0
    if cart_velocity = [] then none
    else
      let avg_speed := sumAbs cart_velocity / (cart_velocity.length : ℚ)
      let rs := roughnessScore input_roughness
      let ls := lagScore estimated_lag
      let ss := speedScore avg_speed
      let bot_score := rs.1 + ls.1 + ss.1
      let final_ai := pyMin 100 (pyMax 0 bot_score)
      some (final_ai, 100 - final_ai,
        .metrics (pyRound 3 input_roughness) estimated_lag (pyRound 3 avg_speed)
          (rs.2 ++ ls.2 ++ ss.2))

/-! ## Routes (`routes.py`): session store, attempt counter, decision -/

/-- Server-side state: the `active_sessions` token registry (dict keys) plus
the modelled client's Flask-session `attempts` counter and `verified` flag. -/
structure SrvState where
  sessions : Finset ℕ
  attempts : ℕ
  verified : Bool
deriving DecidableEq

/-- Failure messages of `verify_stability` (numeric payload of the duration
f-string carried explicitly). -/
inductive FailMsg where
  | durationMsg (duration_sec : ℚ)
  | crashMsg
  | botMsg
deriving DecidableEq, Repr

/-- The `stats` object returned on acceptance.  `max_deviation_rad` keeps the
peak |angle| in radians: the route reports `math.degrees(max_angle)`, a fixed
positive rescaling by the irrational 180/π, immaterial to every claim. -/
structure Stats where
  duration : ℚ
  max_deviation_rad : ℚ
  stability_score : ℤ
deriving DecidableEq, Repr

/-- JSON outcomes of `verify_stability`: the 403 expired-token outcome, a
scored failure (with `attempts_left`, message, rounded metrics, and whether
the `redirect: /failed` lockout field is present), or acceptance. -/
inductive VerifyResponse where
  | expired
  | failed (attempts_left : ℤ) (message : FailMsg) (metrics : ℚ × ℚ) (redirect : Bool)
  | success (metrics : ℚ × ℚ) (stats : Stats)
deriving DecidableEq, Repr

/-- The local `fail(msg)` helper: increment the attempt counter, report
`attempts_left = MAX_ATTEMPTS - attempts`, attach the lockout redirect when
no attempts remain. -/
def failResp (st : SrvState) (msg : FailMsg) (metrics : ℚ × ℚ) :
    SrvState × Option VerifyResponse :=
  let st' := { st with attempts := st.attempts + 1 }
  let left : ℤ := (MAX_ATTEMPTS : ℤ) - st'.attempts
  (st', some (.failed left msg metrics (left ≤ 0)))

/-- `verify_stability` on a decoded payload (token plus the two telemetry
series; the missing-token 400 path is prior to this core).  Returns the new
server state and `some` response, or `none` when the analyzer raises — the
state still records every mutation made before the raise (in particular the
token deletion). -/
def verify_stability (fsqrt : ℚ → ℚ) (st : SrvState) (token : ℕ)
    (angle_history cart_history : List ℚ) : SrvState × Option VerifyResponse :=
  if token ∉ st.sessions then (st, some .expired)
  else
    let st1 := { st with sessions := st.sessions.erase token }
    let cart := if cart_history = [] then List.replicate angle_history.length 0
                else cart_history
    match analyze_behavior_pattern fsqrt angle_history cart with
    | none => (st1, none)
    | some (ai_pct, human_pct, _details) =>
      let metrics : ℚ × ℚ := (pyRound 1 ai_pct, pyRound 1 human_pct)
      if angle_history.length < PASS_FRAME_THRESHOLD then
        failResp st1 (.durationMsg ((angle_history.length : ℚ) / 60)) metrics
      else if angle_history.length ≠ 0 ∧ 1.4 < pyAbs (angle_history.getLastD 0) then
        failResp st1 .crashMsg metrics
      else if human_pct ≤ ai_pct then
        failResp st1 .botMsg metrics
      else
        let st2 := { st1 with verified := true }
        let max_angle := maxAbs angle_history
        (st2, some (.success metrics
          { duration := (angle_history.length : ℚ) / 60
            max_deviation_rad := max_angle
            stability_score := pyMin 100 (pyInt (100 * (1 - max_angle / 1.2))) }))

/-- Outcomes of `init_stabilizer`. -/
inductive InitResponse where
  | maxAttemptsExceeded
  | issued (token : ℕ) (attempts_left : ℤ)
deriving DecidableEq, Repr

/-- `init_stabilizer`, with the fresh `secrets.token_urlsafe(32)` draw as the
`token` parameter.  The generated schedule payload is stored alongside the
token but never consulted by the verification path, so the store keeps only
the token.  `cleanup_expired_sessions` removes timed-out tokens; wall-clock
time is not modelled and an expired token is simply an absent one. -/
def init_stabilizer (st : SrvState) (token : ℕ) : SrvState × InitResponse :=
  if MAX_ATTEMPTS ≤ st.attempts then
    (st, .maxAttemptsExceeded)
  else
    ({ st with sessions := insert token st.sessions },
      .issued token ((MAX_ATTEMPTS : ℤ) - st.attempts))

/-- A client-visible operation against the core. -/
inductive Op where
  | initOp (token : ℕ)
  | verifyOp (token : ℕ) (angle_history cart_history : List ℚ)
deriving DecidableEq, Repr

/-- State transition of one operation. -/
def stepOp (fsqrt : ℚ → ℚ) (st : SrvState) : Op → SrvState
  | .initOp t => (init_stabilizer st t).1
  | .verifyOp t a c => (verify_stability fsqrt st t a c).1

/-- Run a sequence of operations. -/
def runOps (fsqrt : ℚ → ℚ) (st : SrvState) (ops : List Op) : SrvState :=
  ops.foldl (stepOp fsqrt) st

/-- The failure message of a verification outcome, when it is a scored
rejection. -/
def failMsgOf : SrvState × Option VerifyResponse → Option FailMsg
  | (_, some (.failed _ m _ _)) => some m
  | _ => none

/-- Whether a verification outcome is an acceptance. -/
def isAccept : SrvState × Option VerifyResponse → Bool
  | (_, some (.success _ _)) => true
  | _ => false

/-- Modelled from the spec: the stability score §4.4(5) claims —
`100 * (1 - maxAngle/crashThreshold)` clamped to `[0, 100]` with
`crashThreshold = 1.4` — stated for comparison with the implemented score. -/
def claimedStabilityScore (maxAngle : ℚ) : ℚ :=
  pyMin 100 (pyMax 0 (100 * (1 - maxAngle / 1.4)))

/-! ### Concrete data of an accepted verification run (used for C9) -/

/-- First 100 frames of the angle history of the concrete accepted run. -/
def c9angleA : List ℚ :=
  [0, 0, 0, 0, 0, 0, 0, 0, 0, 0, 1, 1, -1, -1, -1, -1, -1, 1, 1, -1, -1, 1, 1, 1, -1, -1, -1, -1, -1, -1, -1, 1, 1, -1, 1, 1, 1, 1, 1, 1, 1, 1, 1, 1, -1, -1, -1, 1, -1, -1, -1, 1, -1, 1, -1, 1, -1, -1, 1, 1, 1, -1, 0, 0, 0, 0, 0, 0, 0, 0, 0, 0, 0, 0, 0, 0, 0, 0, 0, 0, 0, 0, 0, 0, 0, 0, 0, 0, 0, 0, 0, 0, 0, 0, 0, 0, 0, 0, 0, 0]

/-- Frames 100–199 (the peak deviation 13/10 sits at the head). -/
def c9angleB : List ℚ :=
  [13/10, 0, 0, 0, 0, 0, 0, 0, 0, 0, 0, 0, 0, 0, 0, 0, 0, 0, 0, 0, 0, 0, 0, 0, 0, 0, 0, 0, 0, 0, 0, 0, 0, 0, 0, 0, 0, 0, 0, 0, 0, 0, 0, 0, 0, 0, 0, 0, 0, 0, 0, 0, 0, 0, 0, 0, 0, 0, 0, 0, 0, 0, 0, 0, 0, 0, 0, 0, 0, 0, 0, 0, 0, 0, 0, 0, 0, 0, 0, 0, 0, 0, 0, 0, 0, 0, 0, 0, 0, 0, 0, 0, 0, 0, 0, 0, 0, 0, 0, 0]

/-- Frames 200–279. -/
def c9angleC : List ℚ :=
  [0, 0, 0, 0, 0, 0, 0, 0, 0, 0, 0, 0, 0, 0, 0, 0, 0, 0, 0, 0, 0, 0, 0, 0, 0, 0, 0, 0, 0, 0, 0, 0, 0, 0, 0, 0, 0, 0, 0, 0, 0, 0, 0, 0, 0, 0, 0, 0, 0, 0, 0, 0, 0, 0, 0, 0, 0, 0, 0, 0, 0, 0, 0, 0, 0, 0, 0, 0, 0, 0, 0, 0, 0, 0, 0, 0, 0, 0, 0, 0]

/-- A concrete 280-frame angle history that passes every gate: the window
`angle[10:62]` is a ±1 pattern with exact zero mean and unit variance, the
peak |angle| is 13/10 at frame 100, and the final sample is 0. -/
def c9angle : List ℚ :=
  c9angleA ++ c9angleB ++ c9angleC

/-- The matching 63-sample cart history: its first differences are ±1, its
velocity window `velocity[10:62]` is the angle window delayed by 2 frames
(zero mean, unit variance), roughness is 52/61 and mean speed 1, so the
analyzer reports lag 2 and `ai = 0 < human = 100`. -/
def c9cart : List ℚ :=
  [0, 1, 0, 1, 2, 1, 0, 1, 0, 1, 2, 3, 2, 3, 4, 3, 2, 1, 0, -1, 0, 1, 0, -1, 0, 1, 2, 1, 0, -1, -2, -3, -4, -5, -4, -3, -4, -3, -2, -1, 0, 1, 2, 3, 4, 5, 6, 5, 4, 3, 4, 3, 2, 1, 2, 1, 2, 1, 2, 1, 0, 1, 2]

/-! ## Claim C5: the insufficient-data precondition gate -/

/-- Claim C5: if `angleHistory` has fewer than 20 samples, or `cartHistory`
is empty after the zero-fill step, the analyzer immediately returns
`aiProbability 0`, `humanProbability 100` with the `insufficient_data`
marker (and no metrics). -/
theorem C5_insufficient_data (fsqrt : ℚ → ℚ) (angle cart : List ℚ)
    (h : angle.length < 20 ∨
      (if cart = [] then List.replicate angle.length (0 : ℚ) else cart) = []) :
    analyze_behavior_pattern fsqrt angle
      (if cart = [] then List.replicate angle.length 0 else cart)
      = some (0, 100, .insufficientData) := by
  unfold analyze_behavior_pattern
  rcases h with h | h
  · rw [if_pos (Or.inr (Or.inl h))]
  · rw [if_pos (Or.inr (Or.inr h))]

/-- Witness for C5 at a concrete input: a 2-sample angle history with an
empty cart history. -/
theorem C5_witness :
    (([1, 2] : List ℚ).length < 20 ∨
      (if ([] : List ℚ) = [] then List.replicate ([1, 2] : List ℚ).length (0 : ℚ) else []) = []) ∧
    analyze_behavior_pattern id [1, 2]
      (if ([] : List ℚ) = [] then List.replicate ([1, 2] : List ℚ).length 0 else [])
      = some (0, 100, .insufficientData) :=
  ⟨by with_unfolding_all decide,
   C5_insufficient_data id [1, 2] [] (by with_unfolding_all decide)⟩

/-! ## Claim C10: the division by `len(cart_velocity)` can raise -/

/-- Claim C10 (refuted — the code crashes): at `angle_history` of 20 samples
and `cart_history = [0]` (length 1, so its first-difference sequence is
empty), the analyzer hits `avg_speed = total_distance / len(cart_velocity)`
with a zero denominator and raises (modelled `none`); the verify operation
propagates the crash rather than returning a structured result, with the
token already consumed. -/
theorem C10_crash_on_singleton_cart :
    analyze_behavior_pattern id (List.replicate 20 0) [0] = none ∧
    verify_stability id ⟨{1}, 0, false⟩ 1 (List.replicate 20 0) [0]
      = (⟨∅, 0, false⟩, none) := by
  exact ⟨by with_unfolding_all decide, by with_unfolding_all decide⟩

/-! ## Claim C2: tokens are single-use -/

/-- Claim C2: when a verify request finds token `t` in the session store,
`t` is deleted from the store (on every path, including crash paths — the
deletion happens before any analysis or gate), and every subsequent verify
presenting `t` receives the same `Session Expired` outcome as a token that
never existed. -/
theorem C2_token_single_use (fsqrt : ℚ → ℚ) (st : SrvState) (t : ℕ)
    (angle cart : List ℚ) (h : t ∈ st.sessions) :
    (verify_stability fsqrt st t angle cart).1.sessions = st.sessions.erase t ∧
    t ∉ (verify_stability fsqrt st t angle cart).1.sessions ∧
    (∀ st2 : SrvState, ∀ a c : List ℚ, t ∉ st2.sessions →
      verify_stability fsqrt st2 t a c = (st2, some .expired)) ∧
    (∀ a c : List ℚ,
      verify_stability fsqrt (verify_stability fsqrt st t angle cart).1 t a c
        = ((verify_stability fsqrt st t angle cart).1, some .expired)) := by
  have habs : ∀ st2 : SrvState, ∀ a c : List ℚ, t ∉ st2.sessions →
      verify_stability fsqrt st2 t a c = (st2, some .expired) := by
    intro st2 a c h2
    unfold verify_stability
    rw [if_pos h2]
  have hses : (verify_stability fsqrt st t angle cart).1.sessions
      = st.sessions.erase t := by
    unfold verify_stability
    rw [if_neg (not_not_intro h)]
    dsimp only
    rcases hA : analyze_behavior_pattern fsqrt angle
        (if cart = [] then List.replicate angle.length 0 else cart) with _ | ⟨ai, hum, d⟩
    · rfl
    · simp only [failResp]
      split_ifs <;> rfl
  have hnot : t ∉ (verify_stability fsqrt st t angle cart).1.sessions := by
    rw [hses]; exact Finset.not_mem_erase t _
  exact ⟨hses, hnot, habs, fun a c => habs _ a c hnot⟩

/-- Witness for C2 at a concrete store: consuming token 3 and presenting it
again yields the expired outcome. -/
theorem C2_witness :
    3 ∈ (SrvState.mk {3, 7} 1 false).sessions ∧
    verify_stability id (verify_stability id ⟨{3, 7}, 1, false⟩ 3 [] []).1 3 [] []
      = ((verify_stability id ⟨{3, 7}, 1, false⟩ 3 [] []).1, some .expired) :=
  ⟨by decide,
   (C2_token_single_use id ⟨{3, 7}, 1, false⟩ 3 [] [] (by decide)).2.2.2 [] []⟩

/-! ## Claim C8: attempt accounting of rejections -/

/-- Claim C8: a verify whose token is absent is rejected without consuming
an attempt (the state is returned unchanged), while every scored rejection
(duration, crash or bot gate) increments the attempt counter by exactly one,
reports `attempts_left = MAX_ATTEMPTS - attempts`, and carries the terminal
lockout redirect exactly when no attempts remain. -/
theorem C8_attempt_accounting (fsqrt : ℚ → ℚ) (st : SrvState) (t : ℕ)
    (angle cart : List ℚ) :
    (t ∉ st.sessions → verify_stability fsqrt st t angle cart = (st, some .expired)) ∧
    (∀ (st' : SrvState) (left : ℤ) (msg : FailMsg) (m : ℚ × ℚ) (rd : Bool),
      verify_stability fsqrt st t angle cart = (st', some (.failed left msg m rd)) →
      st'.attempts = st.attempts + 1 ∧
      left = (MAX_ATTEMPTS : ℤ) - ((st.attempts : ℤ) + 1) ∧
      (rd = true ↔ left ≤ 0)) := by
  constructor
  · intro h2
    unfold verify_stability
    rw [if_pos h2]
  · intro st' left msg m rd hEq
    by_cases hmem : t ∈ st.sessions
    · unfold verify_stability at hEq
      rw [if_neg (not_not_intro hmem)] at hEq
      dsimp only at hEq
      rcases hA : analyze_behavior_pattern fsqrt angle
          (if cart = [] then List.replicate angle.length 0 else cart) with _ | ⟨ai, hum, d⟩ <;>
        rw [hA] at hEq <;> dsimp only at hEq
      · exact absurd hEq (by simp)
      · simp only [failResp] at hEq
        split_ifs at hEq <;>
          [skip; skip; skip; exact absurd hEq (by simp)] <;>
        · rw [Prod.mk.injEq, Option.some.injEq, VerifyResponse.failed.injEq] at hEq
          obtain ⟨hst, hleft, hmsg, hm, hrd⟩ := hEq
          subst hst
          refine ⟨rfl, by omega, ?_⟩
          rw [← hrd]
          simp only [decide_eq_true_eq]
          omega
    · unfold verify_stability at hEq
      rw [if_pos hmem] at hEq
      exact absurd hEq (by simp)

/-- Witness for C8 at concrete inputs: an absent token consumes nothing; a
scored rejection at `attempts = 2` moves the counter to 3, reports 0
attempts left and flags the lockout. -/
theorem C8_witness :
    ((9 : ℕ) ∉ (SrvState.mk ∅ 0 false).sessions →
      verify_stability id ⟨∅, 0, false⟩ 9 [] [] = (⟨∅, 0, false⟩, some .expired)) ∧
    ((SrvState.mk ∅ 3 false).attempts = (SrvState.mk {1} 2 false).attempts + 1 ∧
      (0 : ℤ) = (MAX_ATTEMPTS : ℤ) - (((SrvState.mk {1} 2 false).attempts : ℤ) + 1) ∧
      (true = true ↔ (0 : ℤ) ≤ 0)) :=
  ⟨(C8_attempt_accounting id ⟨∅, 0, false⟩ 9 [] []).1,
   (C8_attempt_accounting id ⟨{1}, 2, false⟩ 1 [] []).2 ⟨∅, 3, false⟩ 0
      (.durationMsg 0) (0, 100) true (by with_unfolding_all decide)⟩

/-! ## Claim C3: the attempt counter bound -/

/-- Claim C3 (refuted): the attempt counter is claimed never to exceed
`MAX_ATTEMPTS` through any sequence of issue and verify operations.  But
`init_stabilizer` does not limit the number of simultaneously live tokens
and `verify_stability` never consults the counter, so a client holding
`MAX_ATTEMPTS + 1` pre-issued tokens can be scored that many times: after
four issues and four failed verifies the counter is 4 > MAX_ATTEMPTS = 3. -/
theorem C3_counterexample :
    (runOps id ⟨∅, 0, false⟩
      [.initOp 1, .initOp 2, .initOp 3, .initOp 4,
       .verifyOp 1 [] [], .verifyOp 2 [] [], .verifyOp 3 [] [], .verifyOp 4 [] []]).attempts
      = MAX_ATTEMPTS + 1 := by
  with_unfolding_all decide

/-- Claim C3 as amended: the counter is monotonically non-decreasing, grows
by at most one per operation, and once it reaches `MAX_ATTEMPTS` no further
challenge is issued (`MAX_ATTEMPTS_EXCEEDED`, store unchanged) — but
verifications of previously issued live tokens are still scored, so the
counter can exceed `MAX_ATTEMPTS`. -/
theorem C3_attempts_monotone (fsqrt : ℚ → ℚ) :
    (∀ (st : SrvState) (op : Op),
      st.attempts ≤ (stepOp fsqrt st op).attempts ∧
      (stepOp fsqrt st op).attempts ≤ st.attempts + 1) ∧
    (∀ (st : SrvState) (tok : ℕ), MAX_ATTEMPTS ≤ st.attempts →
      init_stabilizer st tok = (st, .maxAttemptsExceeded)) ∧
    (∀ (st : SrvState) (ops : List Op),
      st.attempts ≤ (runOps fsqrt st ops).attempts) := by
  have hstep : ∀ (st : SrvState) (op : Op),
      st.attempts ≤ (stepOp fsqrt st op).attempts ∧
      (stepOp fsqrt st op).attempts ≤ st.attempts + 1 := by
    intro st op
    cases op with
    | initOp tok =>
      unfold stepOp init_stabilizer
      dsimp only
      split_ifs <;> simp
    | verifyOp tok a c =>
      unfold stepOp verify_stability
      dsimp only
      by_cases hmem : tok ∉ st.sessions
      · rw [if_pos hmem]
        simp
      · rw [if_neg hmem]
        rcases hA : analyze_behavior_pattern fsqrt a
            (if c = [] then List.replicate a.length 0 else c) with _ | ⟨ai, hum, d⟩
        · simp
        · simp only [failResp]
          split_ifs <;> simp
  refine ⟨hstep, ?_, ?_⟩
  · intro st tok h
    unfold init_stabilizer
    rw [if_pos h]
  · intro st ops
    induction ops generalizing st with
    | nil => exact le_refl _
    | cons o os ih =>
      calc st.attempts ≤ (stepOp fsqrt st o).attempts := (hstep st o).1
        _ ≤ (runOps fsqrt (stepOp fsqrt st o) os).attempts := ih _
        _ = (runOps fsqrt st (o :: os)).attempts := rfl

/-- Witness for C3 as amended: at a locked-out state (counter at
`MAX_ATTEMPTS`) a challenge request issues nothing. -/
theorem C3_witness :
    MAX_ATTEMPTS ≤ (SrvState.mk ∅ 3 false).attempts ∧
    init_stabilizer ⟨∅, 3, false⟩ 7 = (⟨∅, 3, false⟩, .maxAttemptsExceeded) :=
  ⟨by decide, (C3_attempts_monotone id).2.1 ⟨∅, 3, false⟩ 7 (by decide)⟩

/-! ## Claim C4: the skipped reaction-lag metric -/

/-- Claim C4 (refuted): with fewer than the required 50 samples after offset
10, the lag search is indeed skipped and `estimated_lag` stays 0 — but the
claim that no lag-based reason fires and no lag weight is added is false:
`estimated_lag = 0 < 1` triggers the `Predictive/Instant Reaction` reason
and adds weight 50.  Concretely, at a 20-sample angle history and a
7-sample cart history the analyzer reports `ai = 50` with exactly that
reason. -/
theorem C4_counterexample :
    ((pyMin (List.replicate 20 (0 : ℚ)).length (diffs [0, 1, 1, 2, 2, 3, 3]).length : ℤ)
        - 10 < 50) ∧
    analyze_behavior_pattern id (List.replicate 20 0) [0, 1, 1, 2, 2, 3, 3]
      = some (50, 50, .metrics 1 0 0.5 [.instantReaction]) :=
  ⟨by with_unfolding_all decide, by with_unfolding_all decide⟩

/-- Claim C4 as amended: when fewer than 50 samples are available after
offset 10 of `angleHistory` and `cartVelocity`, the lag search is skipped
and `estimatedLag` defaults to 0; consequently the low-lag branch fires:
the `Predictive/Instant Reaction` reason is appended and lag weight 50 is
added to the bot score (between the roughness and speed contributions). -/
theorem C4_lag_skip (fsqrt : ℚ → ℚ) (angle cart : List ℚ)
    (h1 : ¬(angle = [] ∨ angle.length < 20 ∨ cart = []))
    (h2 : diffs cart ≠ [])
    (h3 : (pyMin angle.length (diffs cart).length : ℤ) - 10 < 50) :
    analyze_behavior_pattern fsqrt angle cart =
      (let r : ℚ := if diffs (diffs cart) ≠ [] then
          sumAbs (diffs (diffs cart)) / ((diffs (diffs cart)).length : ℚ) else 0
       let s : ℚ := sumAbs (diffs cart) / ((diffs cart).length : ℚ)
       some (pyMin 100 (pyMax 0 ((roughnessScore r).1 + 50 + (speedScore s).1)),
         100 - pyMin 100 (pyMax 0 ((roughnessScore r).1 + 50 + (speedScore s).1)),
         .metrics (pyRound 3 r) 0 (pyRound 3 s)
           ((roughnessScore r).2 ++ [Reason.instantReaction] ++ (speedScore s).2))) := by
  unfold analyze_behavior_pattern
  rw [if_neg h1]
  dsimp only
  rw [if_neg (by omega : ¬(50 : ℤ) < (pyMin angle.length (diffs cart).length : ℤ) - 10)]
  rw [if_neg h2]
  have hlag : lagScore 0 = (50, [Reason.instantReaction]) := rfl
  rw [hlag]

/-- Witness for C4 as amended, at the same concrete shape (a 20-sample angle
history, a 7-sample cart history). -/
theorem C4_witness :
    (¬((List.replicate 20 (0 : ℚ)) = [] ∨ (List.replicate 20 (0 : ℚ)).length < 20 ∨
        ([0, 1, 1, 2, 2, 3, 3] : List ℚ) = [])) ∧
    analyze_behavior_pattern id (List.replicate 20 0) [0, 1, 1, 2, 2, 3, 3] =
      (let r : ℚ := if diffs (diffs [0, 1, 1, 2, 2, 3, 3]) ≠ [] then
          sumAbs (diffs (diffs [0, 1, 1, 2, 2, 3, 3]))
            / ((diffs (diffs ([0, 1, 1, 2, 2, 3, 3] : List ℚ))).length : ℚ) else 0
       let s : ℚ := sumAbs (diffs [0, 1, 1, 2, 2, 3, 3])
          / ((diffs ([0, 1, 1, 2, 2, 3, 3] : List ℚ)).length : ℚ)
       some (pyMin 100 (pyMax 0 ((roughnessScore r).1 + 50 + (speedScore s).1)),
         100 - pyMin 100 (pyMax 0 ((roughnessScore r).1 + 50 + (speedScore s).1)),
         .metrics (pyRound 3 r) 0 (pyRound 3 s)
           ((roughnessScore r).2 ++ [Reason.instantReaction] ++ (speedScore s).2))) :=
  ⟨by with_unfolding_all decide,
   C4_lag_skip id (List.replicate 20 0) [0, 1, 1, 2, 2, 3, 3]
     (by with_unfolding_all decide) (by with_unfolding_all decide)
     (by with_unfolding_all decide)⟩

/-! ## Claim C1: the gate order of the verification decision -/

/-- Claim C1: on a valid token (and an analysis that completes), the gates
fire in strict order — too-short histories are rejected with the duration
message regardless of anything else; long-enough histories ending
over-tilted are rejected with the crash message; and a submission with at
least `PASS_FRAME_THRESHOLD` samples whose last angle has absolute value at
most 1.4 is rejected as a bot exactly when `aiProbability ≥
humanProbability` (a 50/50 tie is rejected) and accepted exactly when
`aiProbability < humanProbability`. -/
theorem C1_gate_order (fsqrt : ℚ → ℚ) (st : SrvState) (t : ℕ) (angle cart : List ℚ)
    (ai hum : ℚ) (d : AnalysisDetails)
    (ht : t ∈ st.sessions)
    (ha : analyze_behavior_pattern fsqrt angle
        (if cart = [] then List.replicate angle.length 0 else cart) = some (ai, hum, d)) :
    (angle.length < PASS_FRAME_THRESHOLD →
      failMsgOf (verify_stability fsqrt st t angle cart)
        = some (.durationMsg ((angle.length : ℚ) / 60))) ∧
    (PASS_FRAME_THRESHOLD ≤ angle.length → 1.4 < pyAbs (angle.getLastD 0) →
      failMsgOf (verify_stability fsqrt st t angle cart) = some .crashMsg) ∧
    (PASS_FRAME_THRESHOLD ≤ angle.length → pyAbs (angle.getLastD 0) ≤ 1.4 →
      ((failMsgOf (verify_stability fsqrt st t angle cart) = some .botMsg) ↔ hum ≤ ai) ∧
      ((isAccept (verify_stability fsqrt st t angle cart) = true) ↔ ai < hum)) := by
  unfold verify_stability
  rw [if_neg (not_not_intro ht)]
  dsimp only
  rw [ha]
  dsimp only
  refine ⟨?_, ?_, ?_⟩
  · intro hlen
    rw [if_pos hlen]
    simp [failResp, failMsgOf]
  · intro hlen hcrash
    have hlen' : 280 ≤ angle.length := hlen
    rw [if_neg (by omega : ¬angle.length < PASS_FRAME_THRESHOLD)]
    rw [if_pos ⟨by omega, hcrash⟩]
    simp [failResp, failMsgOf]
  · intro hlen hok
    have hlen' : 280 ≤ angle.length := hlen
    rw [if_neg (by omega : ¬angle.length < PASS_FRAME_THRESHOLD)]
    rw [if_neg (by rintro ⟨-, hc⟩; exact absurd hc (not_lt.2 hok))]
    by_cases hbot : hum ≤ ai
    · rw [if_pos hbot]
      constructor
      · simp [failResp, failMsgOf, hbot]
      · simp only [failResp, isAccept]
        constructor
        · intro hfalse
          exact absurd hfalse (by simp)
        · intro hlt
          exact absurd hbot (not_le.2 hlt)
    · rw [if_neg hbot]
      constructor
      · simp only [failMsgOf]
        constructor
        · intro hfalse
          exact absurd hfalse (by simp)
        · intro hle
          exact absurd hle hbot
      · simp only [isAccept]
        simp only [true_iff]
        exact not_le.1 hbot

/-- Witness for C1: an all-zero 280-frame submission (zero cart telemetry)
is analyzed as `ai = 100 ≥ human = 0`, so despite surviving the full
duration and finishing upright it is rejected at the bot gate. -/
theorem C1_witness :
    analyze_behavior_pattern id (List.replicate 280 0)
      (if (List.replicate 62 (0 : ℚ)) = []
       then List.replicate (List.replicate 280 (0 : ℚ)).length 0
       else List.replicate 62 0)
      = some (100, 0, .metrics 0 0 0
          [.mechanicalSmoothness, .instantReaction, .unnaturalEfficiency]) ∧
    failMsgOf (verify_stability id ⟨{1}, 0, false⟩ 1 (List.replicate 280 0)
      (List.replicate 62 0)) = some .botMsg := by
  refine ⟨by with_unfolding_all decide, ?_⟩
  exact ((C1_gate_order id ⟨{1}, 0, false⟩ 1 (List.replicate 280 0)
      (List.replicate 62 0) 100 0
      (.metrics 0 0 0 [.mechanicalSmoothness, .instantReaction, .unnaturalEfficiency])
      (by decide) (by with_unfolding_all decide)).2.2
      (by with_unfolding_all decide) (by with_unfolding_all decide)).1.mpr (by norm_num)

/-! ## Claim C9: the stability score of an accepted verification -/

/-- Associativity of the binary maximum. -/
theorem pyMax_assoc (a b c : ℚ) : pyMax (pyMax a b) c = pyMax a (pyMax b c) := by
  unfold pyMax
  split_ifs <;> linarith

/-- The peak of the empty history is the fold base 0. -/
theorem maxAbs_nil : maxAbs [] = 0 := rfl

/-- Unfolding `maxAbs` over a cons cell. -/
theorem maxAbs_cons (a : ℚ) (l : List ℚ) :
    maxAbs (a :: l) = pyMax (pyAbs a) (maxAbs l) := rfl

/-- The peak absolute angle is nonnegative. -/
theorem maxAbs_nonneg (l : List ℚ) : 0 ≤ maxAbs l := by
  induction l with
  | nil => exact le_refl 0
  | cons a l ih =>
    rw [maxAbs_cons]
    unfold pyMax
    split_ifs with h
    · linarith
    · exact ih

/-- `pyMax 0` is the identity on nonnegative rationals. -/
theorem pyMax_zero_of_nonneg (a : ℚ) (h : 0 ≤ a) : pyMax 0 a = a := by
  unfold pyMax
  split_ifs with h2
  · linarith
  · rfl

/-- The peak over a concatenation is the maximum of the two peaks. -/
theorem maxAbs_append (l1 l2 : List ℚ) :
    maxAbs (l1 ++ l2) = pyMax (maxAbs l1) (maxAbs l2) := by
  induction l1 with
  | nil =>
    rw [List.nil_append, maxAbs_nil, pyMax_zero_of_nonneg _ (maxAbs_nonneg l2)]
  | cons a l1 ih =>
    rw [List.cons_append, maxAbs_cons, ih, maxAbs_cons, pyMax_assoc]

/-- The peak absolute angle of the concrete accepted run is 13/10. -/
theorem c9_maxAbs : maxAbs c9angle = 13/10 := by
  unfold c9angle
  rw [maxAbs_append, maxAbs_append]
  rw [show maxAbs c9angleA = 1 by with_unfolding_all decide]
  rw [show maxAbs c9angleB = 13/10 by with_unfolding_all decide]
  rw [show maxAbs c9angleC = 0 by with_unfolding_all decide]
  with_unfolding_all decide

/-- The accept path of `verify_stability` in closed form: a valid token, a
long-enough history ending upright and an `ai < human` verdict produce the
success response with the implemented statistics. -/
theorem verify_accept (fsqrt : ℚ → ℚ) (st : SrvState) (t : ℕ)
    (angle cart : List ℚ) (ai hum : ℚ) (d : AnalysisDetails)
    (ht : t ∈ st.sessions)
    (ha : analyze_behavior_pattern fsqrt angle
        (if cart = [] then List.replicate angle.length 0 else cart) = some (ai, hum, d))
    (h1 : PASS_FRAME_THRESHOLD ≤ angle.length)
    (h2 : pyAbs (angle.getLastD 0) ≤ 1.4)
    (h3 : ai < hum) :
    verify_stability fsqrt st t angle cart =
      (⟨st.sessions.erase t, st.attempts, true⟩,
       some (.success (pyRound 1 ai, pyRound 1 hum)
         { duration := (angle.length : ℚ) / 60
           max_deviation_rad := maxAbs angle
           stability_score := pyMin 100 (pyInt (100 * (1 - maxAbs angle / 1.2))) })) := by
  have hlen' : 280 ≤ angle.length := h1
  unfold verify_stability
  rw [if_neg (not_not_intro ht)]
  dsimp only
  rw [ha]
  dsimp only
  rw [if_neg (by omega : ¬angle.length < PASS_FRAME_THRESHOLD)]
  rw [if_neg (by rintro ⟨-, hc⟩; exact absurd hc (not_lt.2 h2))]
  rw [if_neg (not_le.2 h3)]

/-- The concrete run `c9angle`/`c9cart` is accepted (the analyzer reports
roughness 52/61, lag 2, speed 1, hence `ai = 0 < human = 100`) and returns
stability score −8: `int(100 * (1 − (13/10)/1.2)) = int(−25/3) = −8`,
and `min(100, −8) = −8`. -/
theorem c9_run :
    verify_stability id ⟨{1}, 0, false⟩ 1 c9angle c9cart =
      (⟨∅, 0, true⟩, some (.success (0, 100)
        { duration := 14/3, max_deviation_rad := 13/10, stability_score := -8 })) := by
  rw [verify_accept id ⟨{1}, 0, false⟩ 1 c9angle c9cart 0 100 (.metrics (213/250) 2 1 [])
    (by decide) (by with_unfolding_all decide) (by with_unfolding_all decide)
    (by with_unfolding_all decide) (by norm_num)]
  rw [c9_maxAbs]
  with_unfolding_all decide

/-- Claim C9 (refuted): on the concrete accepted run the returned stability
score is −8, but the claimed formula `100 * (1 - maxAngle/crashThreshold)`
clamped to `[0, 100]` with the 1.4 crash threshold gives `50/7`: the code
divides by 1.2 (not 1.4), truncates toward zero, and never clamps below at
0 (the −8 also shows the missing lower clamp and the toward-zero
truncation, `⌊−25/3⌋` being −9). -/
theorem C9_counterexample :
    verify_stability id ⟨{1}, 0, false⟩ 1 c9angle c9cart =
      (⟨∅, 0, true⟩, some (.success (0, 100)
        { duration := 14/3, max_deviation_rad := 13/10, stability_score := -8 })) ∧
    ¬(((-8 : ℤ) : ℚ) = claimedStabilityScore (13/10)) := by
  refine ⟨c9_run, ?_⟩
  unfold claimedStabilityScore pyMin pyMax
  norm_num

/-- Claim C9 as amended: on an accepted verification the returned stability
score equals `min(100, int(100 * (1 - maxAngle/1.2)))` — the divisor is the
constant 1.2 rather than the 1.4 crash threshold, `int` truncates toward
zero, and only the upper clamp at 100 is applied — where `maxAngle` is the
peak absolute angle over the whole history (also reported, in radians, as
the peak deviation, alongside `duration = frames/60`). -/
theorem C9_stability_score (fsqrt : ℚ → ℚ) (st st' : SrvState) (t : ℕ)
    (angle cart : List ℚ) (m : ℚ × ℚ) (stats : Stats)
    (h : verify_stability fsqrt st t angle cart = (st', some (.success m stats))) :
    stats.stability_score = pyMin 100 (pyInt (100 * (1 - maxAbs angle / 1.2))) ∧
    stats.max_deviation_rad = maxAbs angle ∧
    stats.duration = (angle.length : ℚ) / 60 := by
  by_cases hmem : t ∈ st.sessions
  · unfold verify_stability at h
    rw [if_neg (not_not_intro hmem)] at h
    dsimp only at h
    rcases hA : analyze_behavior_pattern fsqrt angle
        (if cart = [] then List.replicate angle.length 0 else cart) with _ | ⟨ai, hum, d⟩ <;>
      rw [hA] at h <;> dsimp only at h
    · exact absurd h (by simp)
    · simp only [failResp] at h
      split_ifs at h <;>
        [exact absurd h (by simp); exact absurd h (by simp); exact absurd h (by simp); skip]
      rw [Prod.mk.injEq, Option.some.injEq, VerifyResponse.success.injEq] at h
      obtain ⟨-, -, hstats⟩ := h
      rw [← hstats]
      exact ⟨rfl, rfl, rfl⟩
  · unfold verify_stability at h
    rw [if_pos hmem] at h
    exact absurd h (by simp)

/-- Witness for C9 as amended, at the concrete accepted run. -/
theorem C9_witness :
    verify_stability id ⟨{1}, 0, false⟩ 1 c9angle c9cart =
      (⟨∅, 0, true⟩, some (.success (0, 100)
        { duration := 14/3, max_deviation_rad := 13/10, stability_score := -8 })) ∧
    ((-8 : ℤ) = pyMin 100 (pyInt (100 * (1 - maxAbs c9angle / 1.2))) ∧
     (13/10 : ℚ) = maxAbs c9angle ∧
     (14/3 : ℚ) = ((c9angle.length : ℚ) / 60)) :=
  ⟨c9_run, C9_stability_score id ⟨{1}, 0, false⟩ ⟨∅, 0, true⟩ 1 c9angle c9cart
    (0, 100) { duration := 14/3, max_deviation_rad := 13/10, stability_score := -8 } c9_run⟩

/-! ## Claim C7: the force-jolt profile -/

/-- Value of `List.set` at the written index. -/
theorem getD_set_self (l : List ℚ) (i : ℕ) (a : ℚ) (h : i < l.length) :
    (l.set i a).getD i 0 = a := by
  induction l generalizing i with
  | nil => simp at h
  | cons x xs ih =>
    cases i with
    | zero => rfl
    | succ j => exact ih j (by simpa using h)

/-- Value of `List.set` at any other index. -/
theorem getD_set_ne (l : List ℚ) (i j : ℕ) (a : ℚ) (h : i ≠ j) :
    (l.set i a).getD j 0 = l.getD j 0 := by
  induction l generalizing i j with
  | nil => rfl
  | cons x xs ih =>
    cases i with
    | zero =>
      cases j with
      | zero => exact absurd rfl h
      | succ j2 => rfl
    | succ i2 =>
      cases j with
      | zero => rfl
      | succ j2 => exact ih i2 j2 (by omega)

/-- One decay write preserves the sequence length. -/
theorem decayStep_length (fc jf : ℕ) (l : List ℚ) (k : ℕ) :
    (decayStep fc jf l k).length = l.length := by
  unfold decayStep
  split_ifs <;> simp

/-- A decay write leaves every other index unchanged. -/
theorem decayStep_getD_ne (fc jf : ℕ) (l : List ℚ) (k n : ℕ) (h : n ≠ jf + k) :
    (decayStep fc jf l k).getD n 0 = l.getD n 0 := by
  unfold decayStep
  split_ifs with h2
  · exact getD_set_ne l (jf + k) n _ (by omega)
  · rfl

/-- An in-range decay write stores the base value scaled by `0.5 ^ k`. -/
theorem decayStep_getD_self (fc jf : ℕ) (l : List ℚ) (k : ℕ)
    (h : jf + k < fc) (hl : l.length = fc) :
    (decayStep fc jf l k).getD (jf + k) 0 = l.getD jf 0 * (0.5 : ℚ) ^ k := by
  unfold decayStep
  rw [if_pos h]
  exact getD_set_self l (jf + k) _ (by omega)

/-- A decay write (offset at least 1) never touches the base frame. -/
theorem decayStep_getD_base (fc jf : ℕ) (l : List ℚ) (k : ℕ) (hk : 1 ≤ k) :
    (decayStep fc jf l k).getD jf 0 = l.getD jf 0 :=
  decayStep_getD_ne fc jf l k jf (by omega)

/-- The four-iteration decay loop, unrolled. -/
theorem applyJoltEvent_eq (fc : ℕ) (jolts : List ℚ) (jf : ℕ) (mag : ℚ) :
    applyJoltEvent fc jolts (jf, mag) =
      if jf < fc then
        decayStep fc jf (decayStep fc jf (decayStep fc jf
          (decayStep fc jf (jolts.set jf mag) 1) 2) 3) 4
      else jolts := by
  unfold applyJoltEvent
  rfl

/-- Placing one jolt preserves the sequence length. -/
theorem applyJoltEvent_length (fc : ℕ) (jolts : List ℚ) (jf : ℕ) (mag : ℚ) :
    (applyJoltEvent fc jolts (jf, mag)).length = jolts.length := by
  rw [applyJoltEvent_eq]
  split_ifs
  · simp [decayStep_length]
  · rfl

/-- Effect of one jolt event on an arbitrary in-range index: the 5-frame
window `[jf, jf+4]` receives `mag * 0.5 ^ offset` (clipped by the
sequence-end guards), everything else is untouched. -/
theorem applyJoltEvent_getD (fc n : ℕ) (l : List ℚ) (jf : ℕ) (mag : ℚ)
    (hlen : l.length = fc) (hn : n < fc) :
    (applyJoltEvent fc l (jf, mag)).getD n 0 =
      if jf < fc ∧ jf ≤ n ∧ n ≤ jf + 4 then mag * (0.5 : ℚ) ^ (n - jf)
      else l.getD n 0 := by
  rw [applyJoltEvent_eq]
  by_cases hjf : jf < fc
  · rw [if_pos hjf]
    have hbase : ((l.set jf mag).getD jf 0) = mag := getD_set_self l jf mag (by omega)
    have hl1 : (decayStep fc jf (l.set jf mag) 1).length = fc := by
      rw [decayStep_length]; simpa using hlen
    have hl2 : (decayStep fc jf (decayStep fc jf (l.set jf mag) 1) 2).length = fc := by
      rw [decayStep_length]; exact hl1
    have hl3 : (decayStep fc jf (decayStep fc jf (decayStep fc jf
        (l.set jf mag) 1) 2) 3).length = fc := by
      rw [decayStep_length]; exact hl2
    by_cases hcov : jf ≤ n ∧ n ≤ jf + 4
    · obtain ⟨hle, hge⟩ := hcov
      rw [if_pos ⟨hjf, hle, hge⟩]
      rcases (by omega : n = jf ∨ n = jf + 1 ∨ n = jf + 2 ∨ n = jf + 3 ∨ n = jf + 4) with
        hn0 | hn1 | hn2 | hn3 | hn4
      · subst hn0
        rw [decayStep_getD_base fc n _ 4 (by omega),
            decayStep_getD_base fc n _ 3 (by omega),
            decayStep_getD_base fc n _ 2 (by omega),
            decayStep_getD_base fc n _ 1 (by omega), hbase]
        norm_num
      · subst hn1
        rw [decayStep_getD_ne fc jf _ 4 _ (by omega),
            decayStep_getD_ne fc jf _ 3 _ (by omega),
            decayStep_getD_ne fc jf _ 2 _ (by omega),
            decayStep_getD_self fc jf _ 1 (by omega) (by simpa using hlen), hbase]
        norm_num
      · subst hn2
        rw [decayStep_getD_ne fc jf _ 4 _ (by omega),
            decayStep_getD_ne fc jf _ 3 _ (by omega),
            decayStep_getD_self fc jf _ 2 (by omega) hl1,
            decayStep_getD_base fc jf _ 1 (by omega), hbase]
        norm_num
      · subst hn3
        rw [decayStep_getD_ne fc jf _ 4 _ (by omega),
            decayStep_getD_self fc jf _ 3 (by omega) hl2,
            decayStep_getD_base fc jf _ 2 (by omega),
            decayStep_getD_base fc jf _ 1 (by omega), hbase]
        norm_num
      · subst hn4
        rw [decayStep_getD_self fc jf _ 4 (by omega) hl3,
            decayStep_getD_base fc jf _ 3 (by omega),
            decayStep_getD_base fc jf _ 2 (by omega),
            decayStep_getD_base fc jf _ 1 (by omega), hbase]
        norm_num
    · rw [if_neg (by rintro ⟨-, hc⟩; exact hcov hc)]
      rw [decayStep_getD_ne fc jf _ 4 _ (by omega),
          decayStep_getD_ne fc jf _ 3 _ (by omega),
          decayStep_getD_ne fc jf _ 2 _ (by omega),
          decayStep_getD_ne fc jf _ 1 _ (by omega),
          getD_set_ne l jf n mag (by omega)]
  · rw [if_neg hjf, if_neg (by rintro ⟨hc, -⟩; exact hjf hc)]

/-- Processing any event list preserves the sequence length. -/
theorem processJolts_length (fc : ℕ) (L : List (ℕ × ℚ)) (init : List ℚ) :
    (processJolts fc init L).length = init.length := by
  induction L generalizing init with
  | nil => rfl
  | cons e rest ih =>
    obtain ⟨jf, mag⟩ := e
    unfold processJolts
    rw [ih, applyJoltEvent_length]

/-- Every entry of the all-zero initial sequence is 0. -/
theorem getD_replicate (k n : ℕ) : (List.replicate k (0 : ℚ)).getD n 0 = 0 := by
  induction k generalizing n with
  | zero => cases n <;> rfl
  | succ k2 ih =>
    cases n with
    | zero => rfl
    | succ n2 => exact ih n2

/-- Unfolding `lastCover` over a cons cell. -/
theorem lastCover_cons (fc n : ℕ) (e : ℕ × ℚ) (rest : List (ℕ × ℚ)) :
    lastCover fc n (e :: rest) =
      (match lastCover fc n rest with
       | some x => some x
       | none => if e.1 < fc ∧ e.1 ≤ n ∧ n ≤ e.1 + 4 then some e else none) := rfl

/-- Processing events in loop order realizes last-writer-wins: index `n`
holds the decayed magnitude of the last event covering `n`, or the initial
value when no event covers it. -/
theorem processJolts_getD (fc n : ℕ) (hn : n < fc) (L : List (ℕ × ℚ)) :
    ∀ init : List ℚ, init.length = fc →
    (processJolts fc init L).getD n 0 =
      (match lastCover fc n L with
       | some e => e.2 * (0.5 : ℚ) ^ (n - e.1)
       | none => init.getD n 0) := by
  induction L with
  | nil =>
    intro init hinit
    rfl
  | cons e rest ih =>
    intro init hinit
    obtain ⟨jf, mag⟩ := e
    unfold processJolts
    rw [ih _ (by rw [applyJoltEvent_length]; exact hinit)]
    rw [lastCover_cons]
    cases hLC : lastCover fc n rest with
    | some x => rfl
    | none =>
      dsimp only
      rw [applyJoltEvent_getD fc n init jf mag hinit hn]
      by_cases hcov : jf < fc ∧ jf ≤ n ∧ n ≤ jf + 4
      · rw [if_pos hcov, if_pos hcov]
      · rw [if_neg hcov, if_neg hcov]

/-- Claim C7: for every frame count (and any random draws), the generated
jolt sequence has length `frame_count` and is zero at every index not
covered by the 4-frame window of some jolt event; an index at offset
`k = n - jf` within a jolt's window holds that jolt's magnitude times
`0.5 ^ k` (the base frame being offset 0), clipped at the sequence end; and
where windows overlap, the event written later in frame order wins
(`lastCover` picks the last covering event, not a sum). -/
theorem C7_jolt_profile (fc interval : ℕ) (draws : List (ℕ × ℚ)) (n : ℕ) (hn : n < fc) :
    (generate_force_jolts fc interval draws).length = fc ∧
    (generate_force_jolts fc interval draws).getD n 0 =
      (match lastCover fc n (joltEvents fc interval draws) with
       | some e => e.2 * (0.5 : ℚ) ^ (n - e.1)
       | none => 0) := by
  constructor
  · unfold generate_force_jolts
    rw [processJolts_length, List.length_replicate]
  · unfold generate_force_jolts
    rw [processJolts_getD fc n hn _ _ (List.length_replicate fc 0)]
    cases lastCover fc n (joltEvents fc interval draws) with
    | some x => rfl
    | none => exact getD_replicate fc n

/-- Witness for C7: a 12-frame sequence with two jolt events at frames 1 and
9; index 3 holds the first jolt's magnitude decayed by `0.5 ^ 2`. -/
theorem C7_witness :
    (3 < 12) ∧
    ((generate_force_jolts 12 7 [(1, 1/250), (2, -1/500)]).length = 12 ∧
     (generate_force_jolts 12 7 [(1, 1/250), (2, -1/500)]).getD 3 0 =
       (match lastCover 12 3 (joltEvents 12 7 [(1, 1/250), (2, -1/500)]) with
        | some e => e.2 * (0.5 : ℚ) ^ (3 - e.1)
        | none => 0)) :=
  ⟨by decide, C7_jolt_profile 12 7 [(1, 1/250), (2, -1/500)] 3 (by decide)⟩

/-! ## Claim C6: the smooth parameter schedule -/

/-- In-range `getD` agrees with `get` (index lists). -/
theorem getDN_eq_get (l : List ℕ) (i : ℕ) (h : i < l.length) :
    l.getD i 0 = l.get ⟨i, h⟩ := by
  induction l generalizing i with
  | nil => simp at h
  | cons x xs ih =>
    cases i with
    | zero => rfl
    | succ j => exact ih j (by simpa using h)

/-- The cursor never moves backward. -/
theorem advanceIdx_le (P : List ℕ) (f : ℕ) :
    ∀ k idx, P.length - idx ≤ k → idx ≤ advanceIdx P f idx := by
  intro k
  induction k with
  | zero =>
    intro idx hk
    rw [advanceIdx]
    have h1 : ¬(idx + 1 < P.length) := by omega
    rw [dif_neg h1]
  | succ k2 ih =>
    intro idx hk
    rw [advanceIdx]
    by_cases h1 : idx + 1 < P.length
    · rw [dif_pos h1]
      split_ifs with h2
      · exact le_trans (by omega) (ih (idx + 1) (by omega))
      · exact le_refl idx
    · rw [dif_neg h1]

/-- The cursor stays inside the position list. -/
theorem advanceIdx_lt_length (P : List ℕ) (f : ℕ) :
    ∀ k idx, P.length - idx ≤ k → idx < P.length → advanceIdx P f idx < P.length := by
  intro k
  induction k with
  | zero =>
    intro idx hk hidx
    rw [advanceIdx]
    have h1 : ¬(idx + 1 < P.length) := by omega
    rw [dif_neg h1]
    exact hidx
  | succ k2 ih =>
    intro idx hk hidx
    rw [advanceIdx]
    by_cases h1 : idx + 1 < P.length
    · rw [dif_pos h1]
      split_ifs with h2
      · exact ih (idx + 1) (by omega) h1
      · exact hidx
    · rw [dif_neg h1]
      exact hidx

/-- When the advanced cursor still has a successor, the loop stopped
because the current frame lies strictly before that successor keyframe. -/
theorem advanceIdx_stop (P : List ℕ) (f : ℕ) :
    ∀ k idx, P.length - idx ≤ k →
      advanceIdx P f idx + 1 < P.length → f < P.getD (advanceIdx P f idx + 1) 0 := by
  intro k
  induction k with
  | zero =>
    intro idx hk
    rw [advanceIdx]
    have h1 : ¬(idx + 1 < P.length) := by omega
    rw [dif_neg h1]
    intro hcontra
    exact absurd hcontra h1
  | succ k2 ih =>
    intro idx hk
    rw [advanceIdx]
    by_cases h1 : idx + 1 < P.length
    · rw [dif_pos h1]
      split_ifs with h2
      · exact ih (idx + 1) (by omega)
      · intro hb
        rw [getDN_eq_get P (idx + 1) h1]
        omega
    · rw [dif_neg h1]
      intro hcontra
      exact absurd hcontra h1

/-- Either the cursor did not move, or it rests on a keyframe position at
or before the current frame. -/
theorem advanceIdx_reached (P : List ℕ) (f : ℕ) :
    ∀ k idx, P.length - idx ≤ k →
      advanceIdx P f idx = idx ∨ P.getD (advanceIdx P f idx) 0 ≤ f := by
  intro k
  induction k with
  | zero =>
    intro idx hk
    rw [advanceIdx]
    have h1 : ¬(idx + 1 < P.length) := by omega
    rw [dif_neg h1]
    exact Or.inl rfl
  | succ k2 ih =>
    intro idx hk
    rw [advanceIdx]
    by_cases h1 : idx + 1 < P.length
    · rw [dif_pos h1]
      split_ifs with h2
      · rcases ih (idx + 1) (by omega) with heq | hle
        · right
          rw [heq, getDN_eq_get P (idx + 1) h1]
          exact h2
        · exact Or.inr hle
      · exact Or.inl rfl
    · rw [dif_neg h1]
      exact Or.inl rfl

/-- On a strictly increasing position list, re-running the cursor from 0
reaches the same segment as continuing from any valid resume point: the
source's persistent cursor is equivalent to a per-frame search. -/
theorem advanceIdx_zero (P : List ℕ) (f : ℕ) (hs : List.Pairwise (· < ·) P) :
    ∀ idx, idx < P.length → (idx = 0 ∨ P.getD idx 0 ≤ f) →
      advanceIdx P f 0 = advanceIdx P f idx := by
  intro idx
  induction idx with
  | zero => intro _ _; rfl
  | succ i ih =>
    intro hlt hinv
    rcases hinv with h0 | hle
    · exact absurd h0 (by omega)
    · have hi : P.getD i 0 ≤ f := by
        rcases Nat.eq_zero_or_pos i with h0 | hpos
        · subst h0
          have : P.get ⟨0, by omega⟩ < P.get ⟨1, hlt⟩ :=
            List.pairwise_iff_get.mp hs ⟨0, by omega⟩ ⟨1, hlt⟩ (by norm_num)
          rw [getDN_eq_get P 0 (by omega)]
          rw [getDN_eq_get P 1 hlt] at hle
          omega
        · have : P.get ⟨i, by omega⟩ < P.get ⟨i + 1, hlt⟩ :=
            List.pairwise_iff_get.mp hs ⟨i, by omega⟩ ⟨i + 1, hlt⟩ (by simp)
          rw [getDN_eq_get P i (by omega)]
          rw [getDN_eq_get P (i + 1) hlt] at hle
          omega
      have hstep : advanceIdx P f i = advanceIdx P f (i + 1) := by
        rw [advanceIdx, dif_pos hlt]
        rw [getDN_eq_get P (i + 1) hlt] at hle
        rw [if_pos hle]
      rcases Nat.eq_zero_or_pos i with h0 | hpos
      · subst h0
        exact hstep
      · rw [ih (by omega) (Or.inr hi)]
        exact hstep

/-- Normal form of the frame loop: the schedule is the per-frame segment
value mapped over `range(frame_count)`. -/
theorem scheduleGo_eq_map (P : List ℕ) (V : List ℚ) (hs : List.Pairwise (· < ·) P)
    (hn : 1 ≤ P.length) :
    ∀ fuel f idx, (idx = 0 ∨ (idx < P.length ∧ P.getD idx 0 ≤ f)) →
      scheduleGo P V idx f fuel =
        (List.range' f fuel).map fun g => scheduleValueAt P V (advanceIdx P g 0) g := by
  intro fuel
  induction fuel with
  | zero => intro f idx _; rfl
  | succ fuel2 ih =>
    intro f idx hinv
    have hidx : idx < P.length := by
      rcases hinv with h0 | ⟨h, _⟩
      · omega
      · exact h
    have hhead : advanceIdx P f 0 = advanceIdx P f idx := by
      apply advanceIdx_zero P f hs idx hidx
      rcases hinv with h0 | ⟨-, h⟩
      · exact Or.inl h0
      · exact Or.inr h
    have hinv2 : advanceIdx P f idx = 0 ∨
        (advanceIdx P f idx < P.length ∧ P.getD (advanceIdx P f idx) 0 ≤ f + 1) := by
      rcases advanceIdx_reached P f (P.length - idx) idx (le_refl _) with heq | hle
      · rw [heq]
        rcases hinv with h0 | ⟨-, h⟩
        · exact Or.inl h0
        · exact Or.inr ⟨hidx, by omega⟩
      · exact Or.inr ⟨advanceIdx_lt_length P f (P.length - idx) idx (le_refl _) hidx, by omega⟩
    show scheduleValueAt P V (advanceIdx P f idx) f :: scheduleGo P V (advanceIdx P f idx) (f + 1) fuel2
        = (List.range' f (fuel2 + 1)).map fun g => scheduleValueAt P V (advanceIdx P g 0) g
    rw [List.range'_succ, List.map_cons, hhead, ih (f + 1) (advanceIdx P f idx) hinv2]

/-- Linear interpolation with `t ∈ [0, 1]` stays inside any band containing
both endpoints. -/
theorem lerp_bounds (a b t lo hi : ℚ) (ha1 : lo ≤ a) (ha2 : a ≤ hi)
    (hb1 : lo ≤ b) (hb2 : b ≤ hi) (ht1 : 0 ≤ t) (ht2 : t ≤ 1) :
    lo ≤ lerp a b t ∧ lerp a b t ≤ hi := by
  unfold lerp
  constructor
  · nlinarith [mul_nonneg ht1 (sub_nonneg.mpr hb1), mul_nonneg (sub_nonneg.mpr ht2) (sub_nonneg.mpr ha1)]
  · nlinarith [mul_nonneg ht1 (sub_nonneg.mpr hb2), mul_nonneg (sub_nonneg.mpr ht2) (sub_nonneg.mpr ha2)]

/-- An in-range `getD` lookup is a member of the list. -/
theorem getDQ_mem (V : List ℚ) (i : ℕ) (h : i < V.length) : V.getD i 0 ∈ V := by
  induction V generalizing i with
  | nil => simp at h
  | cons x xs ih =>
    cases i with
    | zero => exact List.mem_cons_self x xs
    | succ j => exact List.mem_cons_of_mem x (ih j (by simpa using h))

/-- Every per-frame value lies in the keyframe-value band. -/
theorem scheduleValueAt_bounds (P : List ℕ) (V : List ℚ) (minV maxV : ℚ)
    (hlen : P.length = V.length) (hk : 2 ≤ P.length)
    (hhead : P.getD 0 0 = 0)
    (hvals : ∀ v ∈ V, minV ≤ v ∧ v ≤ maxV) (g : ℕ) :
    minV ≤ scheduleValueAt P V (advanceIdx P g 0) g ∧
      scheduleValueAt P V (advanceIdx P g 0) g ≤ maxV := by
  set r := advanceIdx P g 0 with hr
  have hrlt : r < P.length := advanceIdx_lt_length P g P.length 0 (by omega) (by omega)
  unfold scheduleValueAt
  dsimp only
  by_cases hbranch : P.length - 1 ≤ r
  · rw [if_pos hbranch]
    exact hvals _ (getDQ_mem V (V.length - 1) (by omega))
  · rw [if_neg hbranch]
    have hr1 : r + 1 < P.length := by omega
    have hstart_le : P.getD r 0 ≤ g := by
      rcases advanceIdx_reached P g P.length 0 (by omega) with heq | hle
      · rw [← hr] at heq
        rw [heq, hhead]
        omega
      · rw [← hr] at hle
        exact hle
    have hend_gt : g < P.getD (r + 1) 0 := advanceIdx_stop P g P.length 0 (by omega) hr1
    have hlt : P.getD r 0 < P.getD (r + 1) 0 := by omega
    rw [if_pos (show P.getD (r + 1) 0 ≠ P.getD r 0 by omega)]
    have ht1 : (0 : ℚ) ≤ ((g : ℚ) - P.getD r 0) / ((P.getD (r + 1) 0 : ℚ) - P.getD r 0) := by
      apply div_nonneg
      · have := (Nat.cast_le (α := ℚ)).mpr hstart_le
        linarith
      · have := (Nat.cast_lt (α := ℚ)).mpr hlt
        linarith
    have ht2 : ((g : ℚ) - P.getD r 0) / ((P.getD (r + 1) 0 : ℚ) - P.getD r 0) ≤ 1 := by
      rw [div_le_one (by
        have := (Nat.cast_lt (α := ℚ)).mpr hlt
        linarith)]
      have := (Nat.cast_lt (α := ℚ)).mpr hend_gt
      linarith
    have hva := hvals _ (getDQ_mem V r (by omega))
    have hvb := hvals _ (getDQ_mem V (r + 1) (by omega))
    exact lerp_bounds _ _ _ _ _ hva.1 hva.2 hvb.1 hvb.2 ht1 ht2

/-- Strictly increasing positions: strict index order gives strict value
order. -/
theorem getD_strict_mono (P : List ℕ) (hs : List.Pairwise (· < ·) P) (i j : ℕ)
    (hij : i < j) (hj : j < P.length) : P.getD i 0 < P.getD j 0 := by
  have := List.pairwise_iff_get.mp hs ⟨i, by omega⟩ ⟨j, hj⟩ (by simpa using hij)
  rw [getDN_eq_get P i (by omega), getDN_eq_get P j hj]
  exact this

/-- Strictly increasing positions are monotone in the index. -/
theorem getD_mono (P : List ℕ) (hs : List.Pairwise (· < ·) P) (i j : ℕ)
    (hij : i ≤ j) (hj : j < P.length) : P.getD i 0 ≤ P.getD j 0 := by
  rcases Nat.eq_or_lt_of_le hij with rfl | hlt
  · exact le_refl _
  · exact le_of_lt (getD_strict_mono P hs i j hlt hj)

/-- Indexing a function mapped over `range'`. -/
theorem getD_map_range'Q (φ : ℕ → ℚ) :
    ∀ (n s g : ℕ), g < n → ((List.range' s n).map φ).getD g 0 = φ (s + g) := by
  intro n
  induction n with
  | zero => intro s g h; omega
  | succ n2 ih =>
    intro s g h
    rw [List.range'_succ, List.map_cons]
    cases g with
    | zero => rw [Nat.add_zero]; rfl
    | succ g2 =>
      show (List.map φ (List.range' (s + 1) n2)).getD g2 0 = φ (s + (g2 + 1))
      rw [ih (s + 1) g2 (by omega)]
      congr 1
      omega

/-- At an interior keyframe's own frame the cursor lands exactly on that
keyframe's segment. -/
theorem advanceIdx_keyframe_interior (P : List ℕ) (hs : List.Pairwise (· < ·) P)
    (hhead : P.getD 0 0 = 0) (j : ℕ) (hj : j < P.length - 1) :
    advanceIdx P (P.getD j 0) 0 = j := by
  have hjlt : j < P.length := by omega
  set g := P.getD j 0 with hg
  set r := advanceIdx P g 0 with hr
  have hrlt : r < P.length := advanceIdx_lt_length P g P.length 0 (by omega) (by omega)
  have hRle : P.getD r 0 ≤ g := by
    rcases advanceIdx_reached P g P.length 0 (by omega) with heq | hle
    · rw [← hr] at heq
      rw [heq, hhead]
      omega
    · rw [← hr] at hle
      exact hle
  have hle1 : r ≤ j := by
    by_contra hcon
    have := getD_strict_mono P hs j r (by omega) hrlt
    omega
  have hle2 : j ≤ r := by
    by_contra hcon
    have hr1 : r + 1 < P.length := by omega
    have hstop := advanceIdx_stop P g P.length 0 (by omega) hr1
    rw [← hr] at hstop
    have := getD_mono P hs (r + 1) j (by omega) hjlt
    omega
  omega

/-- At the final keyframe's frame the cursor reaches the last position. -/
theorem advanceIdx_keyframe_last (P : List ℕ) (hs : List.Pairwise (· < ·) P)
    (hk : 1 ≤ P.length) :
    P.length - 1 ≤ advanceIdx P (P.getD (P.length - 1) 0) 0 := by
  set g := P.getD (P.length - 1) 0 with hg
  set r := advanceIdx P g 0 with hr
  by_contra hcon
  have hr1 : r + 1 < P.length := by omega
  have hstop := advanceIdx_stop P g P.length 0 (by omega) hr1
  rw [← hr] at hstop
  have := getD_mono P hs (r + 1) (P.length - 1) (by omega) (by omega)
  omega

/-- The value emitted at a keyframe's own frame is exactly that keyframe's
drawn value (`t = 0` on interior segments, the held last value at the end).
-/
theorem scheduleValueAt_keyframe (P : List ℕ) (V : List ℚ)
    (hs : List.Pairwise (· < ·) P) (hlen : P.length = V.length) (hk : 2 ≤ P.length)
    (hhead : P.getD 0 0 = 0) (j : ℕ) (hj : j < P.length) :
    scheduleValueAt P V (advanceIdx P (P.getD j 0) 0) (P.getD j 0) = V.getD j 0 := by
  by_cases hjlast : j < P.length - 1
  · rw [advanceIdx_keyframe_interior P hs hhead j hjlast]
    unfold scheduleValueAt
    dsimp only
    rw [if_neg (by omega : ¬P.length - 1 ≤ j)]
    have hne : P.getD (j + 1) 0 ≠ P.getD j 0 := by
      have := getD_strict_mono P hs j (j + 1) (by omega) (by omega)
      omega
    rw [if_pos hne]
    rw [sub_self, zero_div]
    unfold lerp
    ring
  · have hjeq : j = P.length - 1 := by omega
    subst hjeq
    have hadv := advanceIdx_keyframe_last P hs (by omega)
    unfold scheduleValueAt
    rw [if_pos hadv]
    congr 1
    omega

/-- Claim C6: for valid draws — strictly increasing keyframe positions
starting at frame 0 and ending at frame `frame_count - 1` (as produced by
sampling `numKeyframes - 2 ≥ 0` distinct interior frames), with the drawn
keyframe values inside `[minVal, maxVal]` — the generated schedule has
exactly `frame_count` values, every value lies within `[minVal, maxVal]`,
and the value at each keyframe position equals the corresponding drawn
keyframe value. -/
theorem C6_schedule (positions : List ℕ) (values : List ℚ) (minVal maxVal : ℚ)
    (frame_count : ℕ)
    (hlen : positions.length = values.length)
    (hk : 2 ≤ positions.length)
    (hsort : List.Pairwise (· < ·) positions)
    (hhead : positions.getD 0 0 = 0)
    (hlast : positions.getD (positions.length - 1) 0 = frame_count - 1)
    (hfc : 2 ≤ frame_count)
    (hvals : ∀ v ∈ values, minVal ≤ v ∧ v ≤ maxVal) :
    (generate_smooth_parameter_schedule positions values frame_count).length = frame_count ∧
    (∀ q ∈ generate_smooth_parameter_schedule positions values frame_count,
      minVal ≤ q ∧ q ≤ maxVal) ∧
    (∀ j, j < positions.length →
      (generate_smooth_parameter_schedule positions values frame_count).getD
          (positions.getD j 0) 0 = values.getD j 0) := by
  have hmap : generate_smooth_parameter_schedule positions values frame_count =
      (List.range' 0 frame_count).map
        fun g => scheduleValueAt positions values (advanceIdx positions g 0) g := by
    unfold generate_smooth_parameter_schedule
    exact scheduleGo_eq_map positions values hsort (by omega) frame_count 0 0 (Or.inl rfl)
  refine ⟨?_, ?_, ?_⟩
  · rw [hmap, List.length_map, List.length_range']
  · intro q hq
    rw [hmap] at hq
    obtain ⟨g, hg, rfl⟩ := List.mem_map.mp hq
    exact scheduleValueAt_bounds positions values minVal maxVal hlen hk hhead hvals g
  · intro j hj
    have hgfc : positions.getD j 0 < frame_count := by
      have := getD_mono positions hsort j (positions.length - 1) (by omega) (by omega)
      omega
    rw [hmap, getD_map_range'Q _ frame_count 0 (positions.getD j 0) hgfc, Nat.zero_add]
    exact scheduleValueAt_keyframe positions values hsort hlen hk hhead j hj

/-- Witness for C6: keyframes at frames 0, 3, 7 of an 8-frame schedule with
values 1, 5, 2 in `[1, 5]`; the schedule has 8 entries and frame 3 carries
the second keyframe value 5. -/
theorem C6_witness :
    List.Pairwise (· < ·) [0, 3, 7] ∧
    (generate_smooth_parameter_schedule [0, 3, 7] [1, 5, 2] 8).length = 8 ∧
    (generate_smooth_parameter_schedule [0, 3, 7] [1, 5, 2] 8).getD 3 0 = 5 :=
  ⟨by decide,
   (C6_schedule [0, 3, 7] [1, 5, 2] 1 5 8 (by decide) (by decide) (by decide)
      (by decide) (by decide) (by decide) (by decide)).1,
   (C6_schedule [0, 3, 7] [1, 5, 2] 1 5 8 (by decide) (by decide) (by decide)
      (by decide) (by decide) (by decide) (by decide)).2.2 1 (by decide)⟩

end Stabilizer
